import Mathlib

/-!
Verification development for the 9292 OV Homey app
(`src/app.js` and `src/lib/9292Api.js`).

The JavaScript source is shallowly embedded: strings are lists of
characters, machine epoch-milliseconds are `Int`, the fractional
division performed by `Math.round` is modelled over `ℚ`, and the
JavaScript falsy-default idiom `x || d` is modelled explicitly.
-/

namespace OV

/-- Strings from the JavaScript source are modelled as lists of characters. -/
abbrev Str := List Char

/-! ## Calendar model (the part of the JavaScript `Date` built-ins the code uses)

`new Date(y, m, d)` and the `getFullYear`/`getMonth`/`getDate`/`getDay`
accessors are modelled through the standard civil-from-days calendar
algorithm.  The host (Homey) runs in UTC, as the source comments state, so
local time equals UTC throughout.  Months are 0-based in the JavaScript API;
`daysFromCivil` takes a 1-based month internally. -/

/-- Day-of-year offset (0-based) of day `d` (1-based) of month `m` (1-based,
in the March-first year layout of the civil-from-days algorithm). -/
def doyOf (m d : Int) : Int := (153 * ((m + 9) % 12) + 2) / 5 + d - 1

/-- The year shifted so that the year starts in March. -/
def yAdj (y m : Int) : Int := if m ≤ 2 then y - 1 else y

/-- Days since the Unix epoch 1970-01-01 of the civil date
`y`-`m`-`d` (month 1-based), proleptic Gregorian calendar. -/
def daysFromCivil (y m d : Int) : Int :=
  (yAdj y m) / 400 * 146097 +
    (((yAdj y m) - (yAdj y m) / 400 * 400) * 365 +
     ((yAdj y m) - (yAdj y m) / 400 * 400) / 4 -
     ((yAdj y m) - (yAdj y m) / 400 * 400) / 100) +
    doyOf m d - 719468

/-- `Date.prototype.getDay`: 0 = Sunday, ..., 6 = Saturday.
The month `m0` is 0-based as in the JavaScript API. -/
def dayOfWeek (y m0 d : Int) : Int := (daysFromCivil y (m0 + 1) d + 4) % 7

/-- Epoch milliseconds of the UTC wall-clock fields
year / month (0-based) / day / hour / minute / second. -/
def utcMillis (y m0 d hh mi ss : Int) : Int :=
  daysFromCivil y (m0 + 1) d * 86400000 + hh * 3600000 + mi * 60000 + ss * 1000

/-! ## `_getAmsterdamOffset` and `_parseDateTime` (src/lib/9292Api.js) -/

/-- `_getAmsterdamOffset(date)` from `src/lib/9292Api.js`.  The JavaScript
function reads `getFullYear()`, `getMonth()` (0-based) and `getDate()` from
its argument and computes `dstStart = 31 - getDay(new Date(year, 2, 31))`
and `dstEnd = 31 - getDay(new Date(year, 9, 31))`; it returns 120 minutes
(CEST) inside the DST window and 60 minutes (CET) outside. -/
def getAmsterdamOffset (year month day : Int) : Int :=
  if (2 < month ∧ month < 9) ∨
     (month = 2 ∧ 31 - dayOfWeek year 2 31 ≤ day) ∨
     (month = 9 ∧ day < 31 - dayOfWeek year 9 31) then 120 else 60

/-- A parsed ISO-like timestamp string, represented by its numeric fields.
`month` is 0-based (as `Date.prototype.getMonth` reports it).  `hasZone`
is true when the string carries explicit offset information (a `Z`, a `+`,
or a `-` following the seconds field), in which case `zoneOffsetMin` is that
offset in minutes.  A `none` input models an absent / empty / unparseable
string. -/
structure DateTimeInput where
  year : Int
  month : Int
  day : Int
  hour : Int
  minute : Int
  second : Int
  hasZone : Bool
  zoneOffsetMin : Int
deriving DecidableEq, Repr

/-- `_parseDateTime(datetime)` from `src/lib/9292Api.js`: absent input gives
`null`; a string with explicit zone information is parsed absolutely; a naive
string is parsed as UTC wall-clock (the host runs in UTC) and the Amsterdam
offset for its calendar date is subtracted. -/
def parseDateTime (o : Option DateTimeInput) : Option Int :=
  match o with
  | none => none
  | some f =>
    if f.hasZone then
      some (utcMillis f.year f.month f.day f.hour f.minute f.second - f.zoneOffsetMin * 60000)
    else
      some (utcMillis f.year f.month f.day f.hour f.minute f.second -
            getAmsterdamOffset f.year f.month f.day * 60000)

/-! ## Spec-side characterisation of the DST window

These definitions follow the specification text, not the code: the last
Sunday of a 31-day month is the unique Sunday among its final seven days,
and DST runs from the last Sunday of March (inclusive) through the day
before the last Sunday of October. -/

/-- `S` is the last Sunday of the 31-day month `m0` (0-based) of year `y`:
it lies in the final week of the month and is a Sunday. -/
def isLastSundayOf31 (y m0 S : Int) : Prop :=
  25 ≤ S ∧ S ≤ 31 ∧ dayOfWeek y m0 S = 0

instance (y m0 S : Int) : Decidable (isLastSundayOf31 y m0 S) := by
  unfold isLastSundayOf31; infer_instance

/-- The spec's DST window at calendar-day granularity: the date
(`month`, `day`) lies on or after (March, `S`) and strictly before
(October, `E`), months 0-based. -/
def dstSpecWindow (month day S E : Int) : Prop :=
  (2 < month ∨ (month = 2 ∧ S ≤ day)) ∧ (month < 9 ∨ (month = 9 ∧ day < E))

instance (month day S E : Int) : Decidable (dstSpecWindow month day S E) := by
  unfold dstSpecWindow; infer_instance

/-- `daysFromCivil` is affine in the day-of-month argument. -/
theorem daysFromCivil_day_shift (y m d e : Int) :
    daysFromCivil y m d = daysFromCivil y m e + (d - e) := by
  unfold daysFromCivil doyOf
  omega

/-- The unique `S` in the last week of a 31-day month that is a Sunday is
the code's `31 - getDay(month-31st)`. -/
theorem lastSunday_eq (y m0 S : Int) (h : isLastSundayOf31 y m0 S) :
    S = 31 - dayOfWeek y m0 31 := by
  obtain ⟨h1, h2, h3⟩ := h
  unfold dayOfWeek at h3 ⊢
  have hshift := daysFromCivil_day_shift y (m0 + 1) S 31
  omega

/-! ## String utilities (JavaScript `toLowerCase`, `includes`, `${...}`, `||`) -/

/-- `String.prototype.toLowerCase` (ASCII, as the data in play is ASCII). -/
def lowerStr (s : Str) : Str := s.map Char.toLower

/-- `String.prototype.toUpperCase`. -/
def upperStr (s : Str) : Str := s.map Char.toUpper

/-- Whether `needle` occurs at the start of `hay`. -/
def strStartsWith : Str → Str → Bool
  | _, [] => true
  | [], _ :: _ => false
  | c :: cs, d :: ds => c == d && strStartsWith cs ds

/-- `String.prototype.includes`: `needle` occurs somewhere in `hay`. -/
def strContains : Str → Str → Bool
  | [], needle => needle.isEmpty
  | hay@(_ :: t), needle => strStartsWith hay needle || strContains t needle

/-- JavaScript `s || d` for an optional string value, where `undefined` and
the empty string are falsy. -/
def jsOrStr (o : Option Str) (d : Str) : Str :=
  match o with
  | none => d
  | some s => if s = [] then d else s

/-- JavaScript `a || b` where both operands are optional strings. -/
def jsOrOptStr (a b : Option Str) : Option Str :=
  match a with
  | none => b
  | some s => if s = [] then b else some s

/-- JavaScript `x || d` for an optional number, where `undefined` and `0`
are falsy. -/
def jsOrNumI (o : Option Int) (d : Int) : Int :=
  match o with
  | none => d
  | some x => if x = 0 then d else x

/-- Template-literal rendering `${x}` of a possibly-undefined string. -/
def tmplStr (o : Option Str) : Str :=
  match o with
  | none => "undefined".data
  | some s => s

/-- The character for decimal digit `n < 10`. -/
def digitChar (n : Nat) : Char := Char.ofNat (48 + n)

/-- Fuel-driven decimal rendering: `fuel` bounds the recursion depth and any
`fuel > n` is adequate. -/
def natDecimalAux (fuel : Nat) (n : Nat) : Str :=
  match fuel with
  | 0 => []
  | fuel + 1 =>
    if n < 10 then [digitChar n]
    else natDecimalAux fuel (n / 10) ++ [digitChar (n % 10)]

/-- Decimal rendering of a natural number, as template literals render it. -/
def natDecimal (n : Nat) : Str := natDecimalAux (n + 1) n

/-- Decimal rendering of an integer. -/
def intDecimal (i : Int) : Str :=
  if i < 0 then '-' :: natDecimal i.natAbs else natDecimal i.toNat

/-- `Math.round(num / den)` for exact integer operands and a positive
denominator: round half toward positive infinity, computed exactly as
`⌊num / den + 1 / 2⌋` (Lean integer division by a positive divisor is floor
division). -/
def jsRoundDiv (num : Int) (den : Nat) : Int := (2 * num + den) / (2 * (den : Int))

/-- `jsRoundDiv` agrees with mathematical round-half-up of the exact
quotient. -/
theorem jsRoundDiv_eq_round (num : Int) (den : Nat) (h : 0 < den) :
    jsRoundDiv num den = round ((num : ℚ) / (den : ℚ)) := by
  rw [round_eq]
  have hq : ((num : ℚ) / (den : ℚ) + 1 / 2) =
      ((2 * num + den : ℤ) : ℚ) / ((2 * den : ℕ) : ℚ) := by
    have hden : ((den : ℚ)) ≠ 0 := by positivity
    push_cast
    field_simp
    ring
  rw [hq, Rat.floor_intCast_div_natCast]
  unfold jsRoundDiv
  push_cast
  ring_nf

/-! ## The canonical Departure model (src/lib/9292Api.js) -/

/-- The canonical departure record built by `getDepartures`. -/
structure Departure where
  line : Str
  destination : Str
  status : Str
  planned_time : Str
  expected_time : Str
  delay_minutes : Int
  transport_type : Str
  operator : Str
  timestamp : Int
  uid : Str
deriving DecidableEq, Repr

/-- A raw departure record from the upstream `Passes` mapping. -/
structure RawDeparture where
  TargetDepartureTime : Option DateTimeInput
  ExpectedDepartureTime : Option DateTimeInput
  TripStopStatus : Option Str
  LinePublicNumber : Option Str
  DestinationName50 : Option Str
  DestinationName : Option Str
  TransportType : Option Str
  OperatorCode : Option Str
deriving DecidableEq, Repr

/-- One sub-stop of a stop area, with its `Passes` mapping (absent `Passes`
is modelled by the empty list, as `stop.Passes || {}` makes them equal). -/
structure SubStop where
  Passes : List RawDeparture
deriving DecidableEq, Repr

/-- `_mapStatus` from `src/lib/9292Api.js`. -/
def mapStatus (status : Str) : Str :=
  if upperStr status = "PLANNED".data ∨ upperStr status = "DRIVING".data ∨
     upperStr status = "ARRIVED".data then "planned".data
  else if upperStr status = "PASSED".data then "passed".data
  else if upperStr status = "CANCEL".data then "cancelled".data
  else "unknown".data

/-- `_mapTransportType` from `src/lib/9292Api.js`. -/
def mapTransportType (t : Str) : Str :=
  if lowerStr t = "bus".data then "bus".data
  else if lowerStr t = "tram".data then "tram".data
  else if lowerStr t = "metro".data then "metro".data
  else if lowerStr t = "trein".data ∨ lowerStr t = "train".data then "train".data
  else if lowerStr t = "ferry".data ∨ lowerStr t = "veer".data then "ferry".data
  else "bus".data

/-- Two-digit zero-padded rendering of a field in `[0, 99)`. -/
def pad2 (n : Int) : Str :=
  if n < 10 then '0' :: natDecimal n.toNat else natDecimal n.toNat

/-- `_formatTime`: render an instant as HH:MM wall-clock (the host locale
renders in UTC, as the host runs in UTC). -/
def formatTime (t : Int) : Str :=
  pad2 (t / 3600000 % 24) ++ ':' :: pad2 (t / 60000 % 60)

/-- `getMinutesUntil(departure)` from `src/lib/9292Api.js`:
`Math.max(0, Math.round((departure.timestamp - now) / 60000))`. -/
def getMinutesUntil (now : Int) (departure : Departure) : Int :=
  max 0 (jsRoundDiv (departure.timestamp - now) 60000)

/-- The per-raw-record body of the loop in `getDepartures`
(src/lib/9292Api.js lines 141-171): `none` when the record is skipped
(status `passed` or unresolvable timestamp). -/
def mkDeparture (stopAreaCode : Str) (departure : RawDeparture) : Option Departure :=
  let planned := parseDateTime departure.TargetDepartureTime
  let expected := parseDateTime departure.ExpectedDepartureTime
  let delayMinutes : Int :=
    match planned, expected with
    | some p, some e => jsRoundDiv (e - p) 60000
    | _, _ => 0
  let status := mapStatus (jsOrStr departure.TripStopStatus [])
  let timestamp := jsOrNumI expected (jsOrNumI planned 0)
  if status = "passed".data ∨ timestamp = 0 then none
  else some {
    line := jsOrStr departure.LinePublicNumber []
    destination := jsOrStr (jsOrOptStr departure.DestinationName50 departure.DestinationName) []
    status := status
    planned_time := match planned with | some p => formatTime p | none => []
    expected_time := match expected with | some e => formatTime e | none => []
    delay_minutes := delayMinutes
    transport_type := mapTransportType (jsOrStr departure.TransportType [])
    operator := jsOrStr departure.OperatorCode []
    timestamp := timestamp
    uid := stopAreaCode ++ '_' :: tmplStr departure.LinePublicNumber ++ '_' ::
           tmplStr (jsOrOptStr departure.DestinationName50 departure.DestinationName) ++ '_' ::
           intDecimal (jsOrNumI planned 0) }

/-- Ascending order on departures by `timestamp`, the comparator
`(a, b) => a.timestamp - b.timestamp`. -/
def depLE (a b : Departure) : Prop := a.timestamp ≤ b.timestamp

instance : DecidableRel depLE := fun a b => by unfold depLE; infer_instance

instance : IsTotal Departure depLE := ⟨fun a b => le_total a.timestamp b.timestamp⟩

instance : IsTrans Departure depLE := ⟨fun _ _ _ h h2 => le_trans h h2⟩

/-- The departures collected from all sub-stops of a stop area. -/
def collectDepartures (stopAreaCode : Str) (stopData : List SubStop) : List Departure :=
  (stopData.map SubStop.Passes).flatten.filterMap (mkDeparture stopAreaCode)

/-- The successful-fetch body of `getDepartures`: collect, then sort by
`timestamp` ascending. -/
def processStopData (stopAreaCode : Str) (stopData : List SubStop) : List Departure :=
  List.insertionSort depLE (collectDepartures stopAreaCode stopData)

/-- One per-station departures cache record. -/
structure CacheEntry where
  time : Int
  data : List Departure
deriving DecidableEq, Repr

/-- `Map.prototype.get` over the (most-recent-first) cache association list. -/
def lookupCache (cache : List (Str × CacheEntry)) (key : Str) : Option CacheEntry :=
  match cache with
  | [] => none
  | (k, e) :: rest => if k = key then some e else lookupCache rest key

/-- The cache-hit test of `getDepartures`: the cached data when the entry
exists and is younger than the 30-second TTL. -/
def freshCached (cache : List (Str × CacheEntry)) (now : Int) (key : Str) :
    Option (List Departure) :=
  match lookupCache cache key with
  | some e => if now - e.time < 30000 then some e.data else none
  | none => none

/-- `getDepartures(stopAreaCode, limit = 10)` from `src/lib/9292Api.js`.
The network fetch is represented by `fetchResult`: `Except.error` models a
rejected request (timeout, network error, or malformed JSON); it is consulted
only on a cache miss, as in the source.  Returns the departure list and the
updated cache. -/
def getDepartures (cache : List (Str × CacheEntry)) (now : Int) (stopAreaCode : Str)
    (limit : Option Nat) (fetchResult : Except Unit (List SubStop)) :
    List Departure × List (Str × CacheEntry) :=
  let lim := limit.getD 10
  if stopAreaCode = [] then ([], cache)
  else
    match freshCached cache now stopAreaCode with
    | some data => (data.take lim, cache)
    | none =>
      match fetchResult with
      | Except.ok stopData =>
        let departures := processStopData stopAreaCode stopData
        (departures.take lim, (stopAreaCode, ⟨now, departures⟩) :: cache)
      | Except.error _ => ([], cache)

/-! ## `searchLocations` (src/lib/9292Api.js) -/

/-- A raw stop-area record from the stop directory. -/
structure StopArea where
  TimingPointName : Option Str
  TimingPointTown : Option Str
  StopAreaCode : Option Str
deriving DecidableEq, Repr

/-- An autocomplete search result. -/
structure SearchResult where
  id : Str
  name : Str
  description : Str
deriving DecidableEq, Repr

/-- The filter predicate of `searchLocations`: the lowercased query occurs in
the lowercased name, town, or code. -/
def stopMatchesQuery (queryLower : Str) (stop : StopArea) : Bool :=
  strContains (lowerStr (jsOrStr stop.TimingPointName [])) queryLower ||
  strContains (lowerStr (jsOrStr stop.TimingPointTown [])) queryLower ||
  strContains (lowerStr (jsOrStr stop.StopAreaCode [])) queryLower

/-- The projection `searchLocations` applies to each matching stop. -/
def mkSearchResult (stop : StopArea) : SearchResult :=
  { id := jsOrStr stop.StopAreaCode []
    name := jsOrStr stop.TimingPointName []
    description := jsOrStr stop.TimingPointTown [] }

/-- `searchLocations(query)` from `src/lib/9292Api.js`, with the stop
directory supplied by `getAllStopAreas` passed explicitly. -/
def searchLocations (query : Str) (allStops : List StopArea) : List SearchResult :=
  if query.length < 2 then []
  else ((allStops.filter (stopMatchesQuery (lowerStr query))).take 15).map mkSearchResult

/-! ## Trigger engine (src/app.js)

A configured rule instance is an argument record; a poll tick evaluates one
instance against the departures fetched for its station, fires at most one
event (the loop breaks after firing), and records the dedup key of the fired
departure in the triggered-set.  The triggered-set is modelled as a list of
keys with membership semantics. -/

/-- The `station` autocomplete argument. -/
structure Station where
  id : Str
deriving DecidableEq, Repr

/-- The argument record of a configured trigger rule instance. -/
structure TriggerArgs where
  station : Option Station
  destination : Option Str
  minutes : Option Int
  min_delay : Option Int
  trigger_mode : Str
deriving DecidableEq, Repr

/-- `args.station?.id`, with `undefined` rendered as the empty (falsy)
string, as the guard `if (!args.station?.id) return` treats it. -/
def stationIdOf (args : TriggerArgs) : Str :=
  match args.station with
  | none => []
  | some s => s.id

/-- The dedup key `soon_<uid>`. -/
def soonKey (uid : Str) : Str := "soon_".data ++ uid

/-- The dedup key `delayed_<uid>`. -/
def delayedKey (uid : Str) : Str := "delayed_".data ++ uid

/-- The departure loop of `_checkDepartureSoonTrigger` (src/app.js lines
237-276): skip destination mismatches, skip departures beyond the minutes
threshold, skip already-triggered departures under once-mode, and otherwise
fire (returning the fired departure), record the key, and break. -/
def checkSoonLoop (destinationLower : Str) (threshold : Int) (once : Bool) (now : Int)
    (departures : List Departure) (triggered : List Str) : List Departure × List Str :=
  match departures with
  | [] => ([], triggered)
  | dep :: rest =>
    if destinationLower ≠ [] ∧ strContains (lowerStr dep.destination) destinationLower = false then
      checkSoonLoop destinationLower threshold once now rest triggered
    else if getMinutesUntil now dep ≤ threshold then
      if once = true ∧ soonKey dep.uid ∈ triggered then
        checkSoonLoop destinationLower threshold once now rest triggered
      else ([dep], soonKey dep.uid :: triggered)
    else
      checkSoonLoop destinationLower threshold once now rest triggered

/-- `_checkDepartureSoonTrigger(args)` from `src/app.js`, with the fetched
departures passed explicitly.  The threshold is `args.minutes || 5` and
once-mode is `args.trigger_mode === 'once'`. -/
def checkDepartureSoonTrigger (args : TriggerArgs) (now : Int)
    (departures : List Departure) (triggered : List Str) : List Departure × List Str :=
  if stationIdOf args = [] then ([], triggered)
  else
    checkSoonLoop (lowerStr (jsOrStr args.destination [])) (jsOrNumI args.minutes 5)
      (args.trigger_mode == "once".data) now departures triggered

/-- The departure loop of `_checkDepartureDelayedTrigger` (src/app.js lines
286-323): like the soon loop, but a departure qualifies when its
`delay_minutes` strictly exceeds the threshold. -/
def checkDelayedLoop (destinationLower : Str) (minDelay : Int) (once : Bool)
    (departures : List Departure) (triggered : List Str) : List Departure × List Str :=
  match departures with
  | [] => ([], triggered)
  | dep :: rest =>
    if destinationLower ≠ [] ∧ strContains (lowerStr dep.destination) destinationLower = false then
      checkDelayedLoop destinationLower minDelay once rest triggered
    else if minDelay < dep.delay_minutes then
      if once = true ∧ delayedKey dep.uid ∈ triggered then
        checkDelayedLoop destinationLower minDelay once rest triggered
      else ([dep], delayedKey dep.uid :: triggered)
    else
      checkDelayedLoop destinationLower minDelay once rest triggered

/-- `_checkDepartureDelayedTrigger(args)` from `src/app.js`.  The threshold
is `args.min_delay || 5`. -/
def checkDepartureDelayedTrigger (args : TriggerArgs)
    (departures : List Departure) (triggered : List Str) : List Departure × List Str :=
  if stationIdOf args = [] then ([], triggered)
  else
    checkDelayedLoop (lowerStr (jsOrStr args.destination [])) (jsOrNumI args.min_delay 5)
      (args.trigger_mode == "once".data) departures triggered

/-- The destination filter shared by both trigger loops: no filter
configured, or the lowercased departure destination contains the lowercased
configured destination. -/
def destMatches (destinationLower : Str) (dep : Departure) : Prop :=
  destinationLower = [] ∨ strContains (lowerStr dep.destination) destinationLower = true

instance (destinationLower : Str) (dep : Departure) :
    Decidable (destMatches destinationLower dep) := by
  unfold destMatches; infer_instance

/-- A departure qualifies for the soon trigger of rule instance `args`. -/
def soonQualifies (args : TriggerArgs) (now : Int) (dep : Departure) : Prop :=
  destMatches (lowerStr (jsOrStr args.destination [])) dep ∧
  getMinutesUntil now dep ≤ jsOrNumI args.minutes 5

instance (args : TriggerArgs) (now : Int) (dep : Departure) :
    Decidable (soonQualifies args now dep) := by
  unfold soonQualifies; infer_instance

/-- A departure qualifies for the delayed trigger of rule instance `args`. -/
def delayedQualifies (args : TriggerArgs) (dep : Departure) : Prop :=
  destMatches (lowerStr (jsOrStr args.destination [])) dep ∧
  jsOrNumI args.min_delay 5 < dep.delay_minutes

instance (args : TriggerArgs) (dep : Departure) :
    Decidable (delayedQualifies args dep) := by
  unfold delayedQualifies; infer_instance

/-- A run of consecutive poll ticks of one soon rule instance: each tick
supplies the current time and the fetched departures; the triggered-set is
threaded through (no cleanup runs during the window).  Returns the list of
per-tick firings and the final triggered-set. -/
def runSoonPolls (args : TriggerArgs) (polls : List (Int × List Departure))
    (triggered : List Str) : List (List Departure) × List Str :=
  match polls with
  | [] => ([], triggered)
  | (now, departures) :: rest =>
    let r := checkDepartureSoonTrigger args now departures triggered
    let rr := runSoonPolls args rest r.2
    (r.1 :: rr.1, rr.2)

/-- A run of consecutive poll ticks of one delayed rule instance. -/
def runDelayedPolls (args : TriggerArgs) (polls : List (List Departure))
    (triggered : List Str) : List (List Departure) × List Str :=
  match polls with
  | [] => ([], triggered)
  | departures :: rest =>
    let r := checkDepartureDelayedTrigger args departures triggered
    let rr := runDelayedPolls args rest r.2
    (r.1 :: rr.1, rr.2)

/-- The number of firings in a run that were caused by a departure with
uid `u`. -/
def countUidFires (u : Str) (fires : List (List Departure)) : Nat :=
  (fires.map (fun fs => (fs.filter (fun d => d.uid == u)).length)).sum

/-! ## `_cleanupTriggeredDepartures` (src/app.js) -/

/-- ASCII decimal digit test, as `parseInt` recognises digits. -/
def isDigit (c : Char) : Bool := '0' ≤ c && c ≤ '9'

/-- Accumulate the value of the leading digit run (stops at the first
non-digit). -/
def parseDigitsAux : Str → Nat → Nat
  | [], acc => acc
  | c :: t, acc => if isDigit c then parseDigitsAux t (acc * 10 + (c.toNat - 48)) else acc

/-- The value of the leading digit run; `none` (NaN) when the string does
not start with a digit. -/
def parseDigits (s : Str) : Option Nat :=
  match s with
  | c :: _ => if isDigit c then some (parseDigitsAux s 0) else none
  | [] => none

/-- `parseInt(s, 10)`: optional sign, then the leading digit run; `none`
models NaN. -/
def parseIntJS (s : Str) : Option Int :=
  match s with
  | [] => none
  | c :: rest =>
    if c = '-' then (parseDigits rest).map (fun n => -(n : Int))
    else if c = '+' then (parseDigits rest).map (fun n => (n : Int))
    else (parseDigits (c :: rest)).map (fun n => (n : Int))

/-- `key.split('_')` followed by taking the last part: the suffix after the
last underscore. -/
def lastComp (s : Str) : Str := (s.reverse.takeWhile (fun c => c ≠ '_')).reverse

/-- The deletion test of `_cleanupTriggeredDepartures`:
`timestamp && timestamp < now - 3600000`, where `timestamp` is
`parseInt` of the key's last underscore-separated part (NaN and 0 are
falsy). -/
def shouldDeleteKey (now : Int) (key : Str) : Bool :=
  match parseIntJS (lastComp key) with
  | none => false
  | some t => decide (t ≠ 0) && decide (t < now - 3600000)

/-- `_cleanupTriggeredDepartures` from `src/app.js`, acting on one of the two
key sets. -/
def cleanupTriggeredDepartures (now : Int) (triggered : List Str) : List Str :=
  triggered.filter (fun k => !shouldDeleteKey now k)

/-! ## Lemmas about the soon-trigger loop -/

/-- The loop only ever adds keys: the triggered-set grows monotonically. -/
theorem soonLoop_subset (dl : Str) (th : Int) (o : Bool) (now : Int)
    (deps : List Departure) :
    ∀ trig k, k ∈ trig → k ∈ (checkSoonLoop dl th o now deps trig).2 := by
  induction deps with
  | nil => intro trig k hk; simpa [checkSoonLoop] using hk
  | cons dep rest ih =>
    intro trig k hk
    simp only [checkSoonLoop]
    split_ifs with h1 h2 h3
    · exact ih trig k hk
    · exact ih trig k hk
    · exact List.mem_cons_of_mem _ hk
    · exact ih trig k hk

/-- Everything true of a departure the loop fires: it came from the input
list, it passed the destination filter and the threshold test, its key is
recorded afterwards, and under once-mode its key was not yet present. -/
theorem soonLoop_fire_spec (dl : Str) (th : Int) (o : Bool) (now : Int)
    (deps : List Departure) :
    ∀ trig d, d ∈ (checkSoonLoop dl th o now deps trig).1 →
      d ∈ deps ∧
      (dl = [] ∨ strContains (lowerStr d.destination) dl = true) ∧
      getMinutesUntil now d ≤ th ∧
      soonKey d.uid ∈ (checkSoonLoop dl th o now deps trig).2 ∧
      (o = true → soonKey d.uid ∉ trig) := by
  induction deps with
  | nil => intro trig d hd; simp [checkSoonLoop] at hd
  | cons dep rest ih =>
    intro trig d hd
    simp only [checkSoonLoop] at hd ⊢
    split_ifs at hd ⊢ with h1 h2 h3
    · obtain ⟨hm, hrest⟩ := ih trig d hd
      exact ⟨List.mem_cons_of_mem _ hm, hrest⟩
    · obtain ⟨hm, hrest⟩ := ih trig d hd
      exact ⟨List.mem_cons_of_mem _ hm, hrest⟩
    · have hde : d = dep := List.mem_singleton.mp hd
      subst hde
      refine ⟨List.mem_cons_self _ _, ?_, h2, List.mem_cons_self _ _, fun ho hmem => ?_⟩
      · by_cases hdl : dl = []
        · exact Or.inl hdl
        · refine Or.inr ?_
          by_cases hc : strContains (lowerStr d.destination) dl = true
          · exact hc
          · exact absurd ⟨hdl, Bool.not_eq_true _ ▸ hc⟩ h1
      · exact h3 ⟨ho, hmem⟩
    · obtain ⟨hm, hrest⟩ := ih trig d hd
      exact ⟨List.mem_cons_of_mem _ hm, hrest⟩

/-- The loop fires at most one event (it breaks after the first firing). -/
theorem soonLoop_len (dl : Str) (th : Int) (o : Bool) (now : Int)
    (deps : List Departure) :
    ∀ trig, (checkSoonLoop dl th o now deps trig).1.length ≤ 1 := by
  induction deps with
  | nil => intro trig; simp [checkSoonLoop]
  | cons dep rest ih =>
    intro trig
    simp only [checkSoonLoop]
    split_ifs with h1 h2 h3
    · exact ih trig
    · exact ih trig
    · simp
    · exact ih trig

/-- Outside once-mode, the loop fires whenever some departure passes both
the destination filter and the threshold test. -/
theorem soonLoop_fires (dl : Str) (th : Int) (o : Bool) (now : Int)
    (deps : List Departure) (ho : o = false) :
    ∀ trig, (∃ d ∈ deps, (dl = [] ∨ strContains (lowerStr d.destination) dl = true) ∧
        getMinutesUntil now d ≤ th) →
      (checkSoonLoop dl th o now deps trig).1 ≠ [] := by
  induction deps with
  | nil => intro trig h; simp at h
  | cons dep rest ih =>
    intro trig h
    simp only [checkSoonLoop]
    split_ifs with h1 h2 h3
    · apply ih trig
      obtain ⟨d, hd, hdm, hmu⟩ := h
      rcases List.mem_cons.mp hd with rfl | hdrest
      · rcases hdm with hnil | hc
        · exact absurd hnil h1.1
        · exact absurd hc (by simp [h1.2])
      · exact ⟨d, hdrest, hdm, hmu⟩
    · exact absurd h3.1 (by simp [ho])
    · simp
    · apply ih trig
      obtain ⟨d, hd, hdm, hmu⟩ := h
      rcases List.mem_cons.mp hd with rfl | hdrest
      · exact absurd hmu h2
      · exact ⟨d, hdrest, hdm, hmu⟩

/-! ## Lemmas about the delayed-trigger loop (mirroring the soon loop) -/

/-- The delayed loop only ever adds keys. -/
theorem delayedLoop_subset (dl : Str) (md : Int) (o : Bool)
    (deps : List Departure) :
    ∀ trig k, k ∈ trig → k ∈ (checkDelayedLoop dl md o deps trig).2 := by
  induction deps with
  | nil => intro trig k hk; simpa [checkDelayedLoop] using hk
  | cons dep rest ih =>
    intro trig k hk
    simp only [checkDelayedLoop]
    split_ifs with h1 h2 h3
    · exact ih trig k hk
    · exact ih trig k hk
    · exact List.mem_cons_of_mem _ hk
    · exact ih trig k hk

/-- Everything true of a departure the delayed loop fires. -/
theorem delayedLoop_fire_spec (dl : Str) (md : Int) (o : Bool)
    (deps : List Departure) :
    ∀ trig d, d ∈ (checkDelayedLoop dl md o deps trig).1 →
      d ∈ deps ∧
      (dl = [] ∨ strContains (lowerStr d.destination) dl = true) ∧
      md < d.delay_minutes ∧
      delayedKey d.uid ∈ (checkDelayedLoop dl md o deps trig).2 ∧
      (o = true → delayedKey d.uid ∉ trig) := by
  induction deps with
  | nil => intro trig d hd; simp [checkDelayedLoop] at hd
  | cons dep rest ih =>
    intro trig d hd
    simp only [checkDelayedLoop] at hd ⊢
    split_ifs at hd ⊢ with h1 h2 h3
    · obtain ⟨hm, hrest⟩ := ih trig d hd
      exact ⟨List.mem_cons_of_mem _ hm, hrest⟩
    · obtain ⟨hm, hrest⟩ := ih trig d hd
      exact ⟨List.mem_cons_of_mem _ hm, hrest⟩
    · have hde : d = dep := List.mem_singleton.mp hd
      subst hde
      refine ⟨List.mem_cons_self _ _, ?_, h2, List.mem_cons_self _ _, fun ho hmem => ?_⟩
      · by_cases hdl : dl = []
        · exact Or.inl hdl
        · refine Or.inr ?_
          by_cases hc : strContains (lowerStr d.destination) dl = true
          · exact hc
          · exact absurd ⟨hdl, Bool.not_eq_true _ ▸ hc⟩ h1
      · exact h3 ⟨ho, hmem⟩
    · obtain ⟨hm, hrest⟩ := ih trig d hd
      exact ⟨List.mem_cons_of_mem _ hm, hrest⟩

/-- The delayed loop fires at most one event. -/
theorem delayedLoop_len (dl : Str) (md : Int) (o : Bool)
    (deps : List Departure) :
    ∀ trig, (checkDelayedLoop dl md o deps trig).1.length ≤ 1 := by
  induction deps with
  | nil => intro trig; simp [checkDelayedLoop]
  | cons dep rest ih =>
    intro trig
    simp only [checkDelayedLoop]
    split_ifs with h1 h2 h3
    · exact ih trig
    · exact ih trig
    · simp
    · exact ih trig

/-- Outside once-mode, the delayed loop fires whenever some departure passes
both tests. -/
theorem delayedLoop_fires (dl : Str) (md : Int) (o : Bool)
    (deps : List Departure) (ho : o = false) :
    ∀ trig, (∃ d ∈ deps, (dl = [] ∨ strContains (lowerStr d.destination) dl = true) ∧
        md < d.delay_minutes) →
      (checkDelayedLoop dl md o deps trig).1 ≠ [] := by
  induction deps with
  | nil => intro trig h; simp at h
  | cons dep rest ih =>
    intro trig h
    simp only [checkDelayedLoop]
    split_ifs with h1 h2 h3
    · apply ih trig
      obtain ⟨d, hd, hdm, hmu⟩ := h
      rcases List.mem_cons.mp hd with rfl | hdrest
      · rcases hdm with hnil | hc
        · exact absurd hnil h1.1
        · exact absurd hc (by simp [h1.2])
      · exact ⟨d, hdrest, hdm, hmu⟩
    · exact absurd h3.1 (by simp [ho])
    · simp
    · apply ih trig
      obtain ⟨d, hd, hdm, hmu⟩ := h
      rcases List.mem_cons.mp hd with rfl | hdrest
      · exact absurd hmu h2
      · exact ⟨d, hdrest, hdm, hmu⟩

/-! ## Per-tick lemmas lifted to the trigger entry points -/

/-- One soon tick only ever adds keys. -/
theorem soonTick_subset (args : TriggerArgs) (now : Int) (deps : List Departure)
    (trig : List Str) (k : Str) (hk : k ∈ trig) :
    k ∈ (checkDepartureSoonTrigger args now deps trig).2 := by
  unfold checkDepartureSoonTrigger
  split_ifs with h
  · exact hk
  · exact soonLoop_subset _ _ _ _ _ trig k hk

/-- Everything true of a departure a soon tick fires. -/
theorem soonTick_fire_spec (args : TriggerArgs) (now : Int) (deps : List Departure)
    (trig : List Str) (d : Departure)
    (hd : d ∈ (checkDepartureSoonTrigger args now deps trig).1) :
    d ∈ deps ∧ soonQualifies args now d ∧
    soonKey d.uid ∈ (checkDepartureSoonTrigger args now deps trig).2 ∧
    (args.trigger_mode = "once".data → soonKey d.uid ∉ trig) := by
  unfold checkDepartureSoonTrigger at hd ⊢
  split_ifs at hd ⊢ with h
  · simp at hd
  · have hs := soonLoop_fire_spec _ _ _ _ _ trig d hd
    exact ⟨hs.1, ⟨hs.2.1, hs.2.2.1⟩, hs.2.2.2.1,
      fun hm => hs.2.2.2.2 (by simp [hm])⟩

/-- One soon tick fires at most one event. -/
theorem soonTick_len (args : TriggerArgs) (now : Int) (deps : List Departure)
    (trig : List Str) :
    (checkDepartureSoonTrigger args now deps trig).1.length ≤ 1 := by
  unfold checkDepartureSoonTrigger
  split_ifs with h
  · simp
  · exact soonLoop_len _ _ _ _ _ trig

/-- Outside once-mode, a soon tick with a configured station fires whenever
some departure qualifies. -/
theorem soonTick_fires (args : TriggerArgs) (now : Int) (deps : List Departure)
    (trig : List Str) (hmode : args.trigger_mode ≠ "once".data)
    (hst : stationIdOf args ≠ [])
    (hq : ∃ d ∈ deps, soonQualifies args now d) :
    (checkDepartureSoonTrigger args now deps trig).1 ≠ [] := by
  unfold checkDepartureSoonTrigger
  split_ifs with h
  · exact absurd h hst
  · exact soonLoop_fires _ _ _ _ _ (by simp [hmode]) trig hq

/-- One delayed tick only ever adds keys. -/
theorem delayedTick_subset (args : TriggerArgs) (deps : List Departure)
    (trig : List Str) (k : Str) (hk : k ∈ trig) :
    k ∈ (checkDepartureDelayedTrigger args deps trig).2 := by
  unfold checkDepartureDelayedTrigger
  split_ifs with h
  · exact hk
  · exact delayedLoop_subset _ _ _ _ trig k hk

/-- Everything true of a departure a delayed tick fires. -/
theorem delayedTick_fire_spec (args : TriggerArgs) (deps : List Departure)
    (trig : List Str) (d : Departure)
    (hd : d ∈ (checkDepartureDelayedTrigger args deps trig).1) :
    d ∈ deps ∧ delayedQualifies args d ∧
    delayedKey d.uid ∈ (checkDepartureDelayedTrigger args deps trig).2 ∧
    (args.trigger_mode = "once".data → delayedKey d.uid ∉ trig) := by
  unfold checkDepartureDelayedTrigger at hd ⊢
  split_ifs at hd ⊢ with h
  · simp at hd
  · have hs := delayedLoop_fire_spec _ _ _ _ trig d hd
    exact ⟨hs.1, ⟨hs.2.1, hs.2.2.1⟩, hs.2.2.2.1,
      fun hm => hs.2.2.2.2 (by simp [hm])⟩

/-- One delayed tick fires at most one event. -/
theorem delayedTick_len (args : TriggerArgs) (deps : List Departure)
    (trig : List Str) :
    (checkDepartureDelayedTrigger args deps trig).1.length ≤ 1 := by
  unfold checkDepartureDelayedTrigger
  split_ifs with h
  · simp
  · exact delayedLoop_len _ _ _ _ trig

/-- Outside once-mode, a delayed tick with a configured station fires
whenever some departure qualifies. -/
theorem delayedTick_fires (args : TriggerArgs) (deps : List Departure)
    (trig : List Str) (hmode : args.trigger_mode ≠ "once".data)
    (hst : stationIdOf args ≠ [])
    (hq : ∃ d ∈ deps, delayedQualifies args d) :
    (checkDepartureDelayedTrigger args deps trig).1 ≠ [] := by
  unfold checkDepartureDelayedTrigger
  split_ifs with h
  · exact absurd h hst
  · exact delayedLoop_fires _ _ _ _ (by simp [hmode]) trig hq

/-! ## Run-level lemmas: once-mode dedup across consecutive polls -/

/-- Unfolding one soon poll tick of a run. -/
theorem runSoonPolls_cons (args : TriggerArgs) (now : Int) (deps : List Departure)
    (rest : List (Int × List Departure)) (trig : List Str) :
    runSoonPolls args ((now, deps) :: rest) trig =
      ((checkDepartureSoonTrigger args now deps trig).1 ::
         (runSoonPolls args rest (checkDepartureSoonTrigger args now deps trig).2).1,
       (runSoonPolls args rest (checkDepartureSoonTrigger args now deps trig).2).2) := rfl

/-- Unfolding one delayed poll tick of a run. -/
theorem runDelayedPolls_cons (args : TriggerArgs) (deps : List Departure)
    (rest : List (List Departure)) (trig : List Str) :
    runDelayedPolls args (deps :: rest) trig =
      ((checkDepartureDelayedTrigger args deps trig).1 ::
         (runDelayedPolls args rest (checkDepartureDelayedTrigger args deps trig).2).1,
       (runDelayedPolls args rest (checkDepartureDelayedTrigger args deps trig).2).2) := rfl

/-- The per-uid firing count of a run splits across its first tick. -/
theorem countUidFires_cons (u : Str) (x : List Departure) (xs : List (List Departure)) :
    countUidFires u (x :: xs) =
      (x.filter (fun d => d.uid == u)).length + countUidFires u xs := by
  simp [countUidFires]

/-- Once-mode dedup across a run of soon polls: at most one firing per uid,
and none at all when the uid's key is already recorded. -/
theorem runSoon_once_count (args : TriggerArgs)
    (hmode : args.trigger_mode = "once".data) (u : Str) :
    ∀ polls trig,
      countUidFires u (runSoonPolls args polls trig).1 ≤ 1 ∧
      (soonKey u ∈ trig → countUidFires u (runSoonPolls args polls trig).1 = 0) := by
  intro polls
  induction polls with
  | nil => intro trig; constructor <;> simp [runSoonPolls, countUidFires]
  | cons poll rest ih =>
    obtain ⟨now, deps⟩ := poll
    intro trig
    rw [runSoonPolls_cons, countUidFires_cons]
    by_cases hf : ∃ d ∈ (checkDepartureSoonTrigger args now deps trig).1, d.uid = u
    · obtain ⟨d, hd, hdu⟩ := hf
      have hspec := soonTick_fire_spec args now deps trig d hd
      have hkey : soonKey u ∈ (checkDepartureSoonTrigger args now deps trig).2 :=
        hdu ▸ hspec.2.2.1
      have hrest := (ih _).2 hkey
      constructor
      · have h1 : ((checkDepartureSoonTrigger args now deps trig).1.filter
            (fun d => d.uid == u)).length ≤
            (checkDepartureSoonTrigger args now deps trig).1.length :=
          List.length_filter_le _ _
        have h2 := soonTick_len args now deps trig
        omega
      · intro hmem
        exact absurd (hdu ▸ hmem) (hspec.2.2.2 hmode)
    · have hcnt : ((checkDepartureSoonTrigger args now deps trig).1.filter
          (fun d => d.uid == u)).length = 0 := by
        rw [List.length_eq_zero, List.filter_eq_nil_iff]
        intro d hd
        simp only [beq_iff_eq]
        exact fun he => hf ⟨d, hd, he⟩
      constructor
      · rw [hcnt]
        have := (ih (checkDepartureSoonTrigger args now deps trig).2).1
        omega
      · intro hmem
        rw [hcnt]
        have hmem2 := soonTick_subset args now deps trig _ hmem
        have := (ih (checkDepartureSoonTrigger args now deps trig).2).2 hmem2
        omega

/-- Once-mode dedup across a run of delayed polls. -/
theorem runDelayed_once_count (args : TriggerArgs)
    (hmode : args.trigger_mode = "once".data) (u : Str) :
    ∀ polls trig,
      countUidFires u (runDelayedPolls args polls trig).1 ≤ 1 ∧
      (delayedKey u ∈ trig → countUidFires u (runDelayedPolls args polls trig).1 = 0) := by
  intro polls
  induction polls with
  | nil => intro trig; constructor <;> simp [runDelayedPolls, countUidFires]
  | cons deps rest ih =>
    intro trig
    rw [runDelayedPolls_cons, countUidFires_cons]
    by_cases hf : ∃ d ∈ (checkDepartureDelayedTrigger args deps trig).1, d.uid = u
    · obtain ⟨d, hd, hdu⟩ := hf
      have hspec := delayedTick_fire_spec args deps trig d hd
      have hkey : delayedKey u ∈ (checkDepartureDelayedTrigger args deps trig).2 :=
        hdu ▸ hspec.2.2.1
      have hrest := (ih _).2 hkey
      constructor
      · have h1 : ((checkDepartureDelayedTrigger args deps trig).1.filter
            (fun d => d.uid == u)).length ≤
            (checkDepartureDelayedTrigger args deps trig).1.length :=
          List.length_filter_le _ _
        have h2 := delayedTick_len args deps trig
        omega
      · intro hmem
        exact absurd (hdu ▸ hmem) (hspec.2.2.2 hmode)
    · have hcnt : ((checkDepartureDelayedTrigger args deps trig).1.filter
          (fun d => d.uid == u)).length = 0 := by
        rw [List.length_eq_zero, List.filter_eq_nil_iff]
        intro d hd
        simp only [beq_iff_eq]
        exact fun he => hf ⟨d, hd, he⟩
      constructor
      · rw [hcnt]
        have := (ih (checkDepartureDelayedTrigger args deps trig).2).1
        omega
      · intro hmem
        rw [hcnt]
        have hmem2 := delayedTick_subset args deps trig _ hmem
        have := (ih (checkDepartureDelayedTrigger args deps trig).2).2 hmem2
        omega

/-- Claim C2: for every timestamp with no explicit UTC offset, the normalizer
returns the instant obtained by parsing the numeric fields as UTC wall-clock
and subtracting 120 minutes when the date (at calendar-day granularity) lies
from the last Sunday of March inclusive through the day before the last
Sunday of October of that year, and subtracting 60 minutes otherwise. -/
theorem parseDateTime_dst_normalization (f : DateTimeInput) (hz : f.hasZone = false)
    (hm0 : 0 ≤ f.month) (hm1 : f.month ≤ 11) (S E : Int)
    (hS : isLastSundayOf31 f.year 2 S) (hE : isLastSundayOf31 f.year 9 E) :
    parseDateTime (some f) =
      some (utcMillis f.year f.month f.day f.hour f.minute f.second -
            (if dstSpecWindow f.month f.day S E then 120 else 60) * 60000) := by
  have hS' := lastSunday_eq _ _ _ hS
  have hE' := lastSunday_eq _ _ _ hE
  subst hS' hE'
  simp only [parseDateTime, hz, Bool.false_eq_true, if_false]
  have hiff : ((2 < f.month ∧ f.month < 9) ∨
      (f.month = 2 ∧ 31 - dayOfWeek f.year 2 31 ≤ f.day) ∨
      (f.month = 9 ∧ f.day < 31 - dayOfWeek f.year 9 31)) ↔
      dstSpecWindow f.month f.day (31 - dayOfWeek f.year 2 31)
        (31 - dayOfWeek f.year 9 31) := by
    unfold dstSpecWindow; omega
  unfold getAmsterdamOffset
  rw [if_congr hiff rfl rfl]

/-- Witness for C2, which is also the spec's concrete example: the naive
string 2025-06-14T13:31:00 (June, so DST) normalizes to the instant
2025-06-14T11:31:00Z.  The last Sunday of March 2025 is March 30 and the
last Sunday of October 2025 is October 26. -/
theorem parseDateTime_dst_normalization_witness :
    parseDateTime (some ⟨2025, 5, 14, 13, 31, 0, false, 0⟩) =
      some (utcMillis 2025 5 14 11 31 0) := by
  have h := parseDateTime_dst_normalization ⟨2025, 5, 14, 13, 31, 0, false, 0⟩
    rfl (by decide) (by decide) 30 26 (by decide) (by decide)
  rw [h]; decide

/-! ## Concrete exemplar data used by witnesses and counterexamples -/

/-- A concrete canonical departure: 3 minutes away at `now = 0`, 7 minutes
delayed. -/
def depExample : Departure :=
  { line := "12".data
    destination := "Utrecht Centraal".data
    status := "planned".data
    planned_time := []
    expected_time := []
    delay_minutes := 7
    transport_type := "bus".data
    operator := []
    timestamp := 180000
    uid := "u1".data }

/-- A concrete departure that is only 3 minutes delayed. -/
def depSmallDelay : Departure :=
  { depExample with delay_minutes := 3, uid := "u2".data }

/-- A once-mode rule instance with default thresholds. -/
def argsOnceExample : TriggerArgs :=
  { station := some ⟨"ST".data⟩
    destination := none
    minutes := none
    min_delay := none
    trigger_mode := "once".data }

/-- An always-mode rule instance with default thresholds. -/
def argsAlwaysExample : TriggerArgs :=
  { argsOnceExample with trigger_mode := "always".data }

/-- An always-mode rule instance with both thresholds explicitly
configured to 0. -/
def argsZeroThreshold : TriggerArgs :=
  { argsAlwaysExample with minutes := some 0, min_delay := some 0 }

/-! ## Claim theorems for the trigger engine -/

/-- Claim C1: under once-mode, a departure with a given uid causes at most
one firing of a given trigger kind (soon or delayed) across any run of polls
within its lifetime (no cleanup intervening), from any initial triggered-set;
each poll tick fires at most one event per rule instance; and outside
once-mode the trigger fires on every poll in which some departure
qualifies. -/
theorem trigger_mode_once_and_always_semantics :
    (∀ args polls trig u, args.trigger_mode = "once".data →
       countUidFires u (runSoonPolls args polls trig).1 ≤ 1) ∧
    (∀ args polls trig u, args.trigger_mode = "once".data →
       countUidFires u (runDelayedPolls args polls trig).1 ≤ 1) ∧
    (∀ args now deps trig, (checkDepartureSoonTrigger args now deps trig).1.length ≤ 1) ∧
    (∀ args deps trig, (checkDepartureDelayedTrigger args deps trig).1.length ≤ 1) ∧
    (∀ args now deps trig, args.trigger_mode ≠ "once".data → stationIdOf args ≠ [] →
       (∃ d ∈ deps, soonQualifies args now d) →
       (checkDepartureSoonTrigger args now deps trig).1 ≠ []) ∧
    (∀ args deps trig, args.trigger_mode ≠ "once".data → stationIdOf args ≠ [] →
       (∃ d ∈ deps, delayedQualifies args d) →
       (checkDepartureDelayedTrigger args deps trig).1 ≠ []) :=
  ⟨fun args polls trig u h => (runSoon_once_count args h u polls trig).1,
   fun args polls trig u h => (runDelayed_once_count args h u polls trig).1,
   soonTick_len, delayedTick_len, soonTick_fires, delayedTick_fires⟩

/-- Witness for C1: the once-mode instance fires for uid `u1` at most once
across three polls that all contain the same qualifying departure, and the
always-mode instance fires on a poll with a qualifying departure, for both
kinds. -/
theorem trigger_mode_once_and_always_semantics_witness :
    countUidFires "u1".data (runSoonPolls argsOnceExample
      [(0, [depExample]), (30000, [depExample]), (60000, [depExample])] []).1 ≤ 1 ∧
    (checkDepartureSoonTrigger argsAlwaysExample 0 [depExample] []).1 ≠ [] ∧
    (checkDepartureDelayedTrigger argsAlwaysExample [depExample] []).1 ≠ [] :=
  ⟨trigger_mode_once_and_always_semantics.1 argsOnceExample
      [(0, [depExample]), (30000, [depExample]), (60000, [depExample])] [] "u1".data rfl,
   trigger_mode_once_and_always_semantics.2.2.2.2.1 argsAlwaysExample 0 [depExample] []
      (by decide) (by decide) ⟨depExample, by decide, by decide⟩,
   trigger_mode_once_and_always_semantics.2.2.2.2.2 argsAlwaysExample [depExample] []
      (by decide) (by decide) ⟨depExample, by decide, by decide⟩⟩

/-- Counterexample for C4 as stated: with an explicitly configured threshold
of 0 the soon trigger nevertheless fires for a departure 3 minutes away
(3 ≤ 0 is false), and the delayed trigger ignores a departure 3 minutes
delayed (3 > 0 is true) — the code evaluates `args.minutes || 5` and
`args.min_delay || 5`, for which the explicit value 0 is falsy. -/
theorem threshold_zero_falls_back_to_five :
    (checkDepartureSoonTrigger argsZeroThreshold 0 [depExample] []).1 = [depExample] ∧
    ¬ (getMinutesUntil 0 depExample ≤ 0) ∧
    (checkDepartureDelayedTrigger argsZeroThreshold [depSmallDelay] []).1 = [] ∧
    0 < depSmallDelay.delay_minutes := by decide

/-- Claim C4, amended: a tick considers exactly the departures that pass the
destination filter and the threshold test (`minutesUntil ≤ threshold` for
soon, `delay_minutes > threshold` for delayed); the threshold used is 5 when
none is configured OR when the configured value is 0, and is the configured
value for every nonzero configured value. -/
theorem trigger_threshold_filters :
    (∀ args now deps trig d, d ∈ (checkDepartureSoonTrigger args now deps trig).1 →
       soonQualifies args now d) ∧
    (∀ args deps trig d, d ∈ (checkDepartureDelayedTrigger args deps trig).1 →
       delayedQualifies args d) ∧
    (∀ args now deps trig, (∀ d ∈ deps, ¬ soonQualifies args now d) →
       (checkDepartureSoonTrigger args now deps trig).1 = []) ∧
    (∀ args deps trig, (∀ d ∈ deps, ¬ delayedQualifies args d) →
       (checkDepartureDelayedTrigger args deps trig).1 = []) ∧
    jsOrNumI none 5 = 5 ∧
    (∀ t : Int, t ≠ 0 → jsOrNumI (some t) 5 = t) := by
  refine ⟨fun args now deps trig d hd => (soonTick_fire_spec args now deps trig d hd).2.1,
    fun args deps trig d hd => (delayedTick_fire_spec args deps trig d hd).2.1,
    fun args now deps trig hq => ?_, fun args deps trig hq => ?_, rfl, fun t ht => ?_⟩
  · by_contra hne
    obtain ⟨d, hd⟩ := List.exists_mem_of_ne_nil _ hne
    have hs := soonTick_fire_spec args now deps trig d hd
    exact hq d hs.1 hs.2.1
  · by_contra hne
    obtain ⟨d, hd⟩ := List.exists_mem_of_ne_nil _ hne
    have hs := delayedTick_fire_spec args deps trig d hd
    exact hq d hs.1 hs.2.1
  · simp [jsOrNumI, ht]

/-- Witness for the amended C4: a fired departure qualifies, and an explicit
nonzero threshold of 7 is used as configured. -/
theorem trigger_threshold_filters_witness :
    soonQualifies argsAlwaysExample 0 depExample ∧ jsOrNumI (some 7) 5 = 7 :=
  ⟨trigger_threshold_filters.1 argsAlwaysExample 0 [depExample] [] depExample (by decide),
   trigger_threshold_filters.2.2.2.2.2 7 (by decide)⟩

/-- Claim C10: every firing records the departure's dedup key in the
triggered-set regardless of `trigger_mode`; consequently, once the key of a
uid is present (for instance after an always-mode firing), a once-mode tick
can never fire a departure with that uid while the key remains. -/
theorem firing_always_records_key :
    (∀ args now deps trig d, d ∈ (checkDepartureSoonTrigger args now deps trig).1 →
       soonKey d.uid ∈ (checkDepartureSoonTrigger args now deps trig).2) ∧
    (∀ args deps trig d, d ∈ (checkDepartureDelayedTrigger args deps trig).1 →
       delayedKey d.uid ∈ (checkDepartureDelayedTrigger args deps trig).2) ∧
    (∀ args now deps trig u, args.trigger_mode = "once".data → soonKey u ∈ trig →
       ∀ d ∈ (checkDepartureSoonTrigger args now deps trig).1, d.uid ≠ u) ∧
    (∀ args deps trig u, args.trigger_mode = "once".data → delayedKey u ∈ trig →
       ∀ d ∈ (checkDepartureDelayedTrigger args deps trig).1, d.uid ≠ u) :=
  ⟨fun args now deps trig d hd => (soonTick_fire_spec args now deps trig d hd).2.2.1,
   fun args deps trig d hd => (delayedTick_fire_spec args deps trig d hd).2.2.1,
   fun args now deps trig u hm hmem d hd he => by
     subst he
     exact (soonTick_fire_spec args now deps trig d hd).2.2.2 hm hmem,
   fun args deps trig u hm hmem d hd he => by
     subst he
     exact (delayedTick_fire_spec args deps trig d hd).2.2.2 hm hmem⟩

/-- Witness for C10: an always-mode firing records the key for both kinds,
and a once-mode tick whose set already holds the key of uid `other` only
fires departures with a different uid. -/
theorem firing_always_records_key_witness :
    soonKey depExample.uid ∈ (checkDepartureSoonTrigger argsAlwaysExample 0 [depExample] []).2 ∧
    delayedKey depExample.uid ∈
      (checkDepartureDelayedTrigger argsAlwaysExample [depExample] []).2 ∧
    depExample.uid ≠ "other".data :=
  ⟨firing_always_records_key.1 argsAlwaysExample 0 [depExample] [] depExample (by decide),
   firing_always_records_key.2.1 argsAlwaysExample [depExample] [] depExample (by decide),
   firing_always_records_key.2.2.1 argsOnceExample 0 [depExample]
     [soonKey "other".data] "other".data rfl (by decide) depExample (by decide)⟩

/-! ## Decimal rendering and parsing round-trip (for the dedup-key claim) -/

/-- A digit character is recognised by `isDigit`. -/
theorem digitChar_isDigit (n : Nat) (h : n < 10) : isDigit (digitChar n) = true := by
  interval_cases n <;> decide

/-- The value a digit character parses back to. -/
theorem digitChar_val (n : Nat) (h : n < 10) : (digitChar n).toNat - 48 = n := by
  interval_cases n <;> decide

/-- A digit character is not an underscore or a sign. -/
theorem isDigit_ne (c : Char) (h : isDigit c = true) :
    c ≠ '_' ∧ c ≠ '-' ∧ c ≠ '+' := by
  refine ⟨?_, ?_, ?_⟩ <;> rintro rfl <;> exact absurd h (by decide)

/-- One-step equation for `parseDigitsAux` on the empty string. -/
theorem parseDigitsAux_nil (acc : Nat) : parseDigitsAux [] acc = acc := rfl

/-- One-step equation for `parseDigitsAux` on a nonempty string. -/
theorem parseDigitsAux_cons (c : Char) (t : Str) (acc : Nat) :
    parseDigitsAux (c :: t) acc =
      if isDigit c then parseDigitsAux t (acc * 10 + (c.toNat - 48)) else acc := rfl

/-- One-step equation for `parseDigits` on a nonempty string. -/
theorem parseDigits_cons (c : Char) (t : Str) :
    parseDigits (c :: t) =
      if isDigit c then some (parseDigitsAux (c :: t) 0) else none := rfl

/-- One-step equation for `parseIntJS` on a nonempty string. -/
theorem parseIntJS_cons (c : Char) (rest : Str) :
    parseIntJS (c :: rest) =
      if c = '-' then (parseDigits rest).map (fun n => -(n : Int))
      else if c = '+' then (parseDigits rest).map (fun n => (n : Int))
      else (parseDigits (c :: rest)).map (fun n => (n : Int)) := rfl

/-- Parsing a single digit character. -/
theorem parseDigitsAux_single (n : Nat) (h : n < 10) (acc : Nat) :
    parseDigitsAux [digitChar n] acc = acc * 10 + n := by
  rw [parseDigitsAux_cons, if_pos (digitChar_isDigit n h), digitChar_val n h,
    parseDigitsAux_nil]

/-- `parseDigitsAux` splits over an all-digit first block. -/
theorem parseDigitsAux_append (l r : Str) (acc : Nat)
    (hl : ∀ c ∈ l, isDigit c = true) :
    parseDigitsAux (l ++ r) acc = parseDigitsAux r (parseDigitsAux l acc) := by
  induction l generalizing acc with
  | nil => rfl
  | cons c t ih =>
    have hc := hl c (List.mem_cons_self _ _)
    simp only [List.cons_append, parseDigitsAux_cons]
    rw [if_pos hc, if_pos hc]
    exact ih _ (fun x hx => hl x (List.mem_cons_of_mem _ hx))

/-- Every character of a fuel-adequate rendering is a digit. -/
theorem natDecimalAux_digits : ∀ (fuel n : Nat), n < fuel →
    ∀ c ∈ natDecimalAux fuel n, isDigit c = true := by
  intro fuel
  induction fuel with
  | zero => intro n h; omega
  | succ fuel ih =>
    intro n h c hc
    unfold natDecimalAux at hc
    split_ifs at hc with h10
    · rw [List.mem_singleton] at hc
      subst hc
      exact digitChar_isDigit n h10
    · rw [List.mem_append] at hc
      rcases hc with hc | hc
      · exact ih (n / 10) (by omega) c hc
      · rw [List.mem_singleton] at hc
        subst hc
        exact digitChar_isDigit _ (Nat.mod_lt _ (by omega))

/-- A fuel-adequate rendering is nonempty. -/
theorem natDecimalAux_ne_nil (fuel n : Nat) (h : n < fuel) :
    natDecimalAux fuel n ≠ [] := by
  cases fuel with
  | zero => omega
  | succ fuel =>
    unfold natDecimalAux
    split_ifs with h10 <;> simp

/-- Parsing a fuel-adequate rendering recovers the value. -/
theorem natDecimalAux_parse : ∀ (fuel n acc : Nat), n < fuel →
    parseDigitsAux (natDecimalAux fuel n) acc =
      acc * 10 ^ (natDecimalAux fuel n).length + n := by
  intro fuel
  induction fuel with
  | zero => intro n acc h; omega
  | succ fuel ih =>
    intro n acc h
    unfold natDecimalAux
    split_ifs with h10
    · rw [parseDigitsAux_single n h10 acc]
      simp
    · rw [parseDigitsAux_append _ _ acc (natDecimalAux_digits fuel (n / 10) (by omega))]
      rw [ih (n / 10) acc (by omega)]
      rw [parseDigitsAux_single (n % 10) (Nat.mod_lt _ (by omega)) _]
      rw [List.length_append, List.length_singleton, pow_succ, ← mul_assoc]
      have hdm := Nat.div_add_mod n 10
      set A := acc * 10 ^ (natDecimalAux fuel (n / 10)).length with hA
      omega

/-- Every character of `natDecimal p` is a digit. -/
theorem natDecimal_digits (p : Nat) : ∀ c ∈ natDecimal p, isDigit c = true :=
  natDecimalAux_digits (p + 1) p (by omega)

/-- `natDecimal p` is nonempty. -/
theorem natDecimal_ne_nil (p : Nat) : natDecimal p ≠ [] :=
  natDecimalAux_ne_nil (p + 1) p (by omega)

/-- `parseDigits` inverts `natDecimal`. -/
theorem parseDigits_natDecimal (p : Nat) : parseDigits (natDecimal p) = some p := by
  obtain ⟨c, t, hct⟩ := List.exists_cons_of_ne_nil (natDecimal_ne_nil p)
  have hdig : isDigit c = true := by
    apply natDecimal_digits p
    rw [hct]
    exact List.mem_cons_self c t
  rw [hct, parseDigits_cons, if_pos hdig, ← hct]
  have hp := natDecimalAux_parse (p + 1) p 0 (by omega)
  unfold natDecimal
  rw [hp]
  simp

/-- `parseInt` inverts `natDecimal`. -/
theorem parseIntJS_natDecimal (p : Nat) : parseIntJS (natDecimal p) = some (p : Int) := by
  obtain ⟨c, t, hct⟩ := List.exists_cons_of_ne_nil (natDecimal_ne_nil p)
  have hdig : isDigit c = true := by
    apply natDecimal_digits p
    rw [hct]
    exact List.mem_cons_self c t
  have hne := isDigit_ne c hdig
  have hpd := parseDigits_natDecimal p
  rw [hct] at hpd ⊢
  rw [parseIntJS_cons, if_neg hne.2.1, if_neg hne.2.2, hpd]
  rfl

/-- `takeWhile` keeps exactly an all-satisfying block up to the first
failing element. -/
theorem takeWhile_append_stop (p : Char → Bool) (l : Str) (x : Char) (r : Str)
    (hl : ∀ c ∈ l, p c = true) (hx : p x = false) :
    (l ++ x :: r).takeWhile p = l := by
  induction l with
  | nil => simp [List.takeWhile_cons, hx]
  | cons c t ih =>
    simp only [List.cons_append, List.takeWhile_cons, hl c (List.mem_cons_self _ _), if_true]
    rw [ih (fun d hd => hl d (List.mem_cons_of_mem _ hd))]

/-- The last underscore-separated component of `prefixPart ++ "_" ++ ds` is
`ds` whenever `ds` contains no underscore. -/
theorem lastComp_append (pre ds : Str) (hds : ∀ c ∈ ds, c ≠ '_') :
    lastComp (pre ++ '_' :: ds) = ds := by
  unfold lastComp
  rw [List.reverse_append, List.reverse_cons, List.append_assoc, List.singleton_append]
  rw [takeWhile_append_stop _ ds.reverse '_' pre.reverse
    (fun c hc => decide_eq_true (List.mem_reverse.mp hc |> hds c)) (by decide)]
  exact List.reverse_reverse ds

/-! ## Claim theorems for the dedup-state cleanup -/

/-- Counterexample for C3 as stated: the key `soon_ST_12_Utr_0` embeds
planned instant 0, which at `now = 7200000` is more than one hour in the
past, yet the cleanup pass retains it — `parseInt` yields 0, which is falsy
in the test `timestamp && timestamp < oneHourAgo`. -/
theorem cleanup_zero_instant_key_retained :
    parseIntJS (lastComp "soon_ST_12_Utr_0".data) = some 0 ∧
    (0 : Int) < 7200000 - 3600000 ∧
    cleanupTriggeredDepartures 7200000 ["soon_ST_12_Utr_0".data] =
      ["soon_ST_12_Utr_0".data] := by decide

/-- Claim C3, amended: for every key whose last underscore-separated part is
the decimal rendering of the embedded planned instant `p` — the shape of
every key the trigger engine inserts — the cleanup pass removes the key iff
`p` is nonzero and more than one hour before the current time; in particular
keys embedding instant 0 (unparseable planned time) are always retained, and
the pass keeps exactly the keys whose deletion test fails. -/
theorem cleanup_removes_exactly_stale_nonzero_keys :
    (∀ (now : Int) (pre : Str) (p : Nat),
       shouldDeleteKey now (pre ++ '_' :: natDecimal p) = true ↔
         (p ≠ 0 ∧ (p : Int) < now - 3600000)) ∧
    (∀ (now : Int) (trig : List Str) (k : Str),
       k ∈ cleanupTriggeredDepartures now trig ↔
         k ∈ trig ∧ shouldDeleteKey now k = false) := by
  constructor
  · intro now pre p
    unfold shouldDeleteKey
    rw [lastComp_append pre _ (fun c hc => (isDigit_ne c (natDecimal_digits p c hc)).1)]
    rw [parseIntJS_natDecimal]
    simp only [Bool.and_eq_true, decide_eq_true_eq]
    omega
  · intro now trig k
    unfold cleanupTriggeredDepartures
    rw [List.mem_filter]
    simp [Bool.not_eq_true']

/-- Witness for the amended C3: a key one hour stale is deleted, a
zero-instant key is kept, and cleanup retains keys whose test fails. -/
theorem cleanup_removes_exactly_stale_nonzero_keys_witness :
    shouldDeleteKey 7200000 ("soon_u".data ++ '_' :: natDecimal 1000) = true ∧
    shouldDeleteKey 7200000 ("soon_u".data ++ '_' :: natDecimal 0) = false ∧
    "k".data ∈ cleanupTriggeredDepartures 0 ["k".data] := by
  refine ⟨(cleanup_removes_exactly_stale_nonzero_keys.1 7200000 "soon_u".data 1000).mpr
    ⟨by decide, by decide⟩, ?_, ?_⟩
  · have h := cleanup_removes_exactly_stale_nonzero_keys.1 7200000 "soon_u".data 0
    cases hb : shouldDeleteKey 7200000 ("soon_u".data ++ '_' :: natDecimal 0) with
    | false => rfl
    | true => exact absurd (h.mp hb).1 (by decide)
  · exact (cleanup_removes_exactly_stale_nonzero_keys.2 0 ["k".data] "k".data).mpr
      ⟨List.mem_cons_self _ _, by decide⟩

/-! ## Claim theorems for the transport client -/

/-- Claim C9: `getMinutesUntil` equals `max 0 (round ((timestamp − now) /
60000))` and is never negative, including for departures in the past. -/
theorem getMinutesUntil_spec (now : Int) (departure : Departure) :
    getMinutesUntil now departure =
      max 0 (round (((departure.timestamp - now : Int) : ℚ) / 60000)) ∧
    0 ≤ getMinutesUntil now departure := by
  constructor
  · unfold getMinutesUntil
    rw [jsRoundDiv_eq_round _ 60000 (by norm_num)]
    norm_num
  · exact le_max_left 0 _

/-- `getDepartures` on a cache miss with a successful fetch: the processed
list truncated to the limit, and the cache updated. -/
theorem getDepartures_miss_ok (cache : List (Str × CacheEntry)) (now : Int)
    (stopAreaCode : Str) (limit : Option Nat) (stopData : List SubStop)
    (hmiss : freshCached cache now stopAreaCode = none) (hst : stopAreaCode ≠ []) :
    getDepartures cache now stopAreaCode limit (Except.ok stopData) =
      ((processStopData stopAreaCode stopData).take (limit.getD 10),
       (stopAreaCode, ⟨now, processStopData stopAreaCode stopData⟩) :: cache) := by
  unfold getDepartures
  rw [if_neg hst, hmiss]

/-- Claim C7: a fetch failure (network error, timeout, or malformed JSON,
all modelled by `Except.error`) yields the empty list and leaves the cache
unchanged; `getDepartures` is a total function, so no error propagates to
trigger evaluation or flow execution. -/
theorem getDepartures_failure_returns_empty (cache : List (Str × CacheEntry)) (now : Int)
    (stopAreaCode : Str) (limit : Option Nat) (e : Unit)
    (hmiss : freshCached cache now stopAreaCode = none) :
    getDepartures cache now stopAreaCode limit (Except.error e) = ([], cache) := by
  by_cases h : stopAreaCode = []
  · subst h; rfl
  · unfold getDepartures
    rw [if_neg h, hmiss]

/-- Witness for C7: a failed fetch for station ST against an empty cache
returns the empty list. -/
theorem getDepartures_failure_returns_empty_witness :
    getDepartures [] 0 "ST".data none (Except.error ()) = ([], []) :=
  getDepartures_failure_returns_empty [] 0 "ST".data none () rfl

/-- Claim C5: a successful fetch returns a list sorted non-decreasing by
`timestamp` with at most `limit` elements, where the limit defaults to 10
when not supplied. -/
theorem getDepartures_sorted_and_limited (cache : List (Str × CacheEntry)) (now : Int)
    (stopAreaCode : Str) (limit : Option Nat) (stopData : List SubStop)
    (hmiss : freshCached cache now stopAreaCode = none) :
    List.Sorted depLE (getDepartures cache now stopAreaCode limit (Except.ok stopData)).1 ∧
    (getDepartures cache now stopAreaCode limit (Except.ok stopData)).1.length ≤
      limit.getD 10 := by
  by_cases h : stopAreaCode = []
  · subst h
    exact ⟨List.sorted_nil, Nat.zero_le _⟩
  · rw [getDepartures_miss_ok cache now stopAreaCode limit stopData hmiss h]
    refine ⟨?_, ?_⟩
    · exact List.Pairwise.sublist (List.take_sublist _ _)
        (List.sorted_insertionSort depLE _)
    · rw [List.length_take]
      exact min_le_left _ _

/-- A raw record that survives the skip test yields a canonical departure
that is neither `passed` nor timestamp-0. -/
theorem mkDeparture_spec (stopAreaCode : Str) (r : RawDeparture) (d : Departure)
    (h : mkDeparture stopAreaCode r = some d) :
    d.status ≠ "passed".data ∧ d.timestamp ≠ 0 := by
  simp only [mkDeparture] at h
  split_ifs at h with hg
  obtain ⟨hg1, hg2⟩ := not_or.mp hg
  obtain rfl : _ = d := Option.some.inj h
  exact ⟨hg1, hg2⟩

/-- Claim C6: every departure in the canonical list has status different
from `passed` and timestamp different from 0 — raw records failing either
test are excluded entirely. -/
theorem getDepartures_excludes_passed_and_zero (cache : List (Str × CacheEntry))
    (now : Int) (stopAreaCode : Str) (limit : Option Nat) (stopData : List SubStop)
    (hmiss : freshCached cache now stopAreaCode = none) :
    ∀ d ∈ (getDepartures cache now stopAreaCode limit (Except.ok stopData)).1,
      d.status ≠ "passed".data ∧ d.timestamp ≠ 0 := by
  intro d hd
  by_cases h : stopAreaCode = []
  · subst h; exact absurd hd (List.not_mem_nil d)
  · rw [getDepartures_miss_ok cache now stopAreaCode limit stopData hmiss h] at hd
    have h2 := List.mem_of_mem_take hd
    have h3 : d ∈ collectDepartures stopAreaCode stopData :=
      (List.perm_insertionSort depLE _).mem_iff.mp h2
    obtain ⟨r, _hr, hmk⟩ := List.mem_filterMap.mp h3
    exact mkDeparture_spec _ _ _ hmk

/-- A concrete raw upstream record carrying explicit-zone timestamps. -/
def rawExample : RawDeparture :=
  { TargetDepartureTime := some ⟨2025, 5, 14, 13, 31, 0, true, 0⟩
    ExpectedDepartureTime := some ⟨2025, 5, 14, 13, 36, 0, true, 0⟩
    TripStopStatus := some "DRIVING".data
    LinePublicNumber := some "12".data
    DestinationName50 := some "Utrecht Centraal".data
    DestinationName := none
    TransportType := some "BUS".data
    OperatorCode := some "GVB".data }

/-- Witness for C5: a one-record successful fetch yields a sorted list of at
most 10 departures. -/
theorem getDepartures_sorted_and_limited_witness :
    List.Sorted depLE (getDepartures [] 0 "ST".data none (Except.ok [⟨[rawExample]⟩])).1 ∧
    (getDepartures [] 0 "ST".data none (Except.ok [⟨[rawExample]⟩])).1.length ≤ 10 :=
  getDepartures_sorted_and_limited [] 0 "ST".data none [⟨[rawExample]⟩] rfl

/-- The canonical departure `getDepartures` produces from `rawExample`. -/
def depProcessedExample : Departure :=
  { line := "12".data
    destination := "Utrecht Centraal".data
    status := "planned".data
    planned_time := "13:31".data
    expected_time := "13:36".data
    delay_minutes := 5
    transport_type := "bus".data
    operator := "GVB".data
    timestamp := 1749908160000
    uid := "ST_12_Utrecht Centraal_1749907860000".data }

/-- Witness for C6: the departure produced by the concrete fetch is neither
`passed` nor timestamp-0. -/
theorem getDepartures_excludes_passed_and_zero_witness :
    depProcessedExample.status ≠ "passed".data ∧ depProcessedExample.timestamp ≠ 0 :=
  getDepartures_excludes_passed_and_zero [] 0 "ST".data none [⟨[rawExample]⟩] rfl
    depProcessedExample (by decide)

/-- A concrete stop-area directory record. -/
def amsterdamStop : StopArea :=
  { TimingPointName := some "Amsterdam Centraal".data
    TimingPointTown := some "Amsterdam".data
    StopAreaCode := some "asdc".data }

/-- Claim C8: queries shorter than 2 characters return the empty list; every
result list has at most 15 entries; every returned result is the projection
of a directory stop whose name, town, or code contains the query
case-insensitively; and the spec's example — searching `amst` against a
directory holding `Amsterdam Centraal` — returns that stop. -/
theorem searchLocations_spec :
    (∀ query allStops, query.length < 2 → searchLocations query allStops = []) ∧
    (∀ query allStops, (searchLocations query allStops).length ≤ 15) ∧
    (∀ query allStops r, r ∈ searchLocations query allStops →
       ∃ stop ∈ allStops, stopMatchesQuery (lowerStr query) stop = true ∧
         r = mkSearchResult stop) ∧
    mkSearchResult amsterdamStop ∈ searchLocations "amst".data [amsterdamStop] := by
  refine ⟨fun query allStops h => ?_, fun query allStops => ?_,
    fun query allStops r hr => ?_, by decide⟩
  · unfold searchLocations
    rw [if_pos h]
  · unfold searchLocations
    split_ifs with h
    · simp
    · rw [List.length_map, List.length_take]
      exact min_le_left _ _
  · unfold searchLocations at hr
    split_ifs at hr with h
    · simp at hr
    · obtain ⟨stop, hmem, heq⟩ := List.mem_map.mp hr
      have h2 := List.mem_of_mem_take hmem
      have h3 := List.mem_filter.mp h2
      exact ⟨stop, h3.1, h3.2, heq.symm⟩

/-- Witness for C8: a one-character query returns nothing, and the example
query's result respects the 15-entry bound. -/
theorem searchLocations_spec_witness :
    searchLocations "a".data [amsterdamStop] = [] ∧
    (searchLocations "amst".data [amsterdamStop]).length ≤ 15 :=
  ⟨searchLocations_spec.1 "a".data [amsterdamStop] (by decide),
   searchLocations_spec.2.1 "amst".data [amsterdamStop]⟩

end OV
